import Mathlib

/-!
Verification of the beads_viewer graph analytics engine.

This file shallowly embeds the parts of the beads_viewer repository that the
verified properties are about: the issue data model (pkg/model/types.go), the
dependency-relationship construction of the graph view (pkg/ui/graph.go,
GraphModel.rebuildGraph), the snapshot statistics (pkg/ui/snapshot.go,
SnapshotBuilder.Build), the insight aggregation (pkg/analysis,
GraphStats.GenerateInsights and getTopKeys), the background worker's
concurrency discipline (pkg/ui/background_worker.go), and - modelled from the
specification where the analysis package's implementation is not part of the
source tree - graph construction, cycle enumeration, the impact scorer and
the metric maps of the analytics engine.

Go maps are modelled as functions built by successive updates (later inserts
win, as in Go); map iteration order, which Go leaves unspecified, is modelled
by quantifying over association-list orders.  Numeric scores (float64 in Go)
are modelled as rationals; the verified claims depend only on comparisons and
on exactly representable values.  Nil dependency pointers are not modelled:
a dependency slice is a list of records.
-/

namespace BeadsViewer

/-- Dependency type string constants from pkg/model/types.go. -/
def DepBlocks : String := "blocks"

/-- Dependency type "related" from pkg/model/types.go. -/
def DepRelated : String := "related"

/-- Dependency type "parent-child" from pkg/model/types.go. -/
def DepParentChild : String := "parent-child"

/-- Dependency type "discovered-from" from pkg/model/types.go. -/
def DepDiscoveredFrom : String := "discovered-from"

/-- Status string constant "open" from pkg/model/types.go. -/
def StatusOpen : String := "open"

/-- Status string constant "in_progress" from pkg/model/types.go. -/
def StatusInProgress : String := "in_progress"

/-- Status string constant "blocked" from pkg/model/types.go. -/
def StatusBlocked : String := "blocked"

/-- Status string constant "closed" from pkg/model/types.go. -/
def StatusClosed : String := "closed"

/-- Dependency record (pkg/model/types.go, struct Dependency); the fields the
analytics engine reads are the target ID and the relationship type. -/
structure Dependency where
  dependsOnID : String
  dtype : String
deriving DecidableEq, Repr

/-- Issue record (pkg/model/types.go, struct Issue); the fields the analytics
engine and the snapshot statistics read are the ID, the status and the typed
dependency records. -/
structure Issue where
  id : String
  status : String
  dependencies : List Dependency
deriving DecidableEq, Repr

/-! ## GraphModel.rebuildGraph (pkg/ui/graph.go, lines 61-103)

The graph view precomputes two relationship maps: `blockers[issue.ID]` lists
the targets of the issue's blocking/parent-child dependencies, and
`dependents[dep.DependsOnID]` lists the issues that carry such a dependency.
An edge is materialized (appended to both maps) exactly when the dependency's
type is DepBlocks or DepParentChild. -/

/-- Relationship maps of GraphModel: `blockers` and `dependents`. -/
structure Rels where
  blockers : String → List String
  dependents : String → List String

/-- Empty relationship maps (fresh `make(map[string][]string)`). -/
def emptyRels : Rels := ⟨fun _ => [], fun _ => []⟩

/-- Body of the inner loop of rebuildGraph: one dependency record of issue
`iid` either appends an edge to both maps (blocking or parent-child type) or
leaves them unchanged. -/
def addDep (iid : String) (dep : Dependency) (r : Rels) : Rels :=
  if dep.dtype = DepBlocks ∨ dep.dtype = DepParentChild then
    { blockers := fun x => if x = iid then r.blockers x ++ [dep.dependsOnID] else r.blockers x
      dependents := fun x =>
        if x = dep.dependsOnID then r.dependents x ++ [iid] else r.dependents x }
  else r

/-- Outer loop body of rebuildGraph: fold one issue's dependency records. -/
def addIssueRels (i : Issue) (r : Rels) : Rels :=
  i.dependencies.foldl (fun r d => addDep i.id d r) r

/-- Relationship construction of GraphModel.rebuildGraph: fold all issues. -/
def rebuildRels (issues : List Issue) : Rels :=
  issues.foldl (fun r i => addIssueRels i r) emptyRels

/-! ## SnapshotBuilder.Build statistics (pkg/ui/snapshot.go, lines 87-116) -/

/-- Modelled from the spec: `model.DependencyType.IsBlocking` is referenced by
SnapshotBuilder.Build but its definition is not part of the source tree.  Per
the specification, blocking relations are "blocks" and "parent-child"
("blocking + parent/child", treated as blocking for graph purposes). -/
def IsBlockingType (t : String) : Bool := t = DepBlocks || t = DepParentChild

/-- Issue lookup map built by SnapshotBuilder.Build (`issueMap`); as with a Go
map, a later insert with the same ID wins. -/
def buildIssueMap (issues : List Issue) : String → Option Issue :=
  issues.foldl (fun m i => fun k => if k = i.id then some i else m k) (fun _ => none)

/-- Inner loop of the readiness check in SnapshotBuilder.Build: an issue is
blocked when some blocking dependency targets an issue that exists in the map
and is not closed. -/
def isBlockedByDeps (imap : String → Option Issue) (deps : List Dependency) : Bool :=
  deps.any (fun dep =>
    IsBlockingType dep.dtype &&
      match imap dep.dependsOnID with
      | some blocker => blocker.status ≠ StatusClosed
      | none => false)

/-- Statistics counters of SnapshotBuilder.Build. -/
structure Counts where
  cOpen : Nat
  cReady : Nat
  cBlocked : Nat
  cClosed : Nat
deriving DecidableEq, Repr

/-- Loop body of the statistics pass in SnapshotBuilder.Build: closed issues
count as closed; every other issue counts as open, and additionally as blocked
(explicit status) or as ready (no open blocking dependency). -/
def countIssue (imap : String → Option Issue) (c : Counts) (i : Issue) : Counts :=
  if i.status = StatusClosed then
    { c with cClosed := c.cClosed + 1 }
  else if i.status = StatusBlocked then
    { c with cOpen := c.cOpen + 1, cBlocked := c.cBlocked + 1 }
  else if isBlockedByDeps imap i.dependencies then
    { c with cOpen := c.cOpen + 1 }
  else
    { c with cOpen := c.cOpen + 1, cReady := c.cReady + 1 }

/-- Statistics pass of SnapshotBuilder.Build over all issues. -/
def buildCounts (issues : List Issue) : Counts :=
  issues.foldl (countIssue (buildIssueMap issues)) ⟨0, 0, 0, 0⟩

/-- Readiness predicate as the specification states it: not closed, not
explicitly blocked, and every blocking dependency either targets an ID absent
from the issue set or targets a closed issue. -/
def readySpec (imap : String → Option Issue) (i : Issue) : Bool :=
  i.status ≠ StatusClosed && i.status ≠ StatusBlocked &&
    i.dependencies.all (fun dep =>
      !IsBlockingType dep.dtype ||
        match imap dep.dependsOnID with
        | some blocker => blocker.status = StatusClosed
        | none => true)

/-! ## analysis.GraphStats.GenerateInsights and getTopKeys
(pkg/analysis insights source, embedded in src/pkg/util/topk/topk_test.go,
second document, lines 580-630)

getTopKeys ranges over a Go map (`for k, v := range m`), collecting key/value
pairs in Go's unspecified map iteration order, sorts them with sort.Slice and
the comparator `ss[i].Value > ss[j].Value` (no tie-break), and returns the
first `limit` keys.  The map together with one iteration order is modelled as
an association list; two calls on the identical map are modelled as two
permuted association lists.  The sort is modelled as a sort by the same
comparator (insertion sort by non-increasing value); ties keep the input
order, one of the behaviors sort.Slice may exhibit. -/

/-- Association list of node ID / score pairs: one iteration order of a Go
`map[string]float64`. -/
abbrev ScoreList := List (String × ℚ)

/-- Value-descending comparison used to model `sort.Slice(ss, ss[i].Value > ss[j].Value)`. -/
def valGE (p q : String × ℚ) : Prop := q.2 ≤ p.2

instance : DecidableRel valGE := fun p q => inferInstanceAs (Decidable (q.2 ≤ p.2))

instance : IsTotal (String × ℚ) valGE := ⟨fun a b => le_total b.2 a.2⟩

instance : IsTrans (String × ℚ) valGE := ⟨fun _ _ _ hab hbc => le_trans hbc hab⟩

/-- analysis.getTopKeys: sort the collected pairs by value descending and
return the first `limit` keys. -/
def getTopKeys (m : ScoreList) (limit : Nat) : List String :=
  ((List.insertionSort valGE m).take limit).map Prod.fst

/-- analysis.GraphStats: the metric maps of the engine plus cycles and
density, each map as an association list (pkg/analysis; field set as read by
pkg/ui/graph.go and GenerateInsights). -/
structure GraphStats where
  pageRank : ScoreList
  betweenness : ScoreList
  eigenvector : ScoreList
  hubs : ScoreList
  authorities : ScoreList
  criticalPathScore : ScoreList
  inDegree : List (String × Nat)
  outDegree : List (String × Nat)
  cycles : List (List String)
  density : ℚ
deriving Repr

/-- analysis.Insights as produced by GenerateInsights. -/
structure Insights where
  bottlenecks : List String
  keystones : List String
  influencers : List String
  hubs : List String
  authorities : List String
  cycles : List (List String)
  clusterDensity : ℚ
deriving Repr

/-- analysis.GraphStats.GenerateInsights: top-`limit` keys of five metric
maps, plus the cycle list and the density. -/
def GenerateInsights (s : GraphStats) (limit : Nat) : Insights :=
  { bottlenecks := getTopKeys s.betweenness limit
    keystones := getTopKeys s.criticalPathScore limit
    influencers := getTopKeys s.eigenvector limit
    hubs := getTopKeys s.hubs limit
    authorities := getTopKeys s.authorities limit
    cycles := s.cycles
    clusterDensity := s.density }

/-- Metric maps that agree except for iteration order: a betweenness tie makes
GenerateInsights order-sensitive.  Stats with scores `a = 1, b = 1`. -/
def tieStatsA : GraphStats :=
  { pageRank := [], betweenness := [("a", 1), ("b", 1)], eigenvector := []
    hubs := [], authorities := [], criticalPathScore := []
    inDegree := [], outDegree := [], cycles := [], density := 0 }

/-- The same metric map as tieStatsA in the opposite iteration order. -/
def tieStatsB : GraphStats :=
  { pageRank := [], betweenness := [("b", 1), ("a", 1)], eigenvector := []
    hubs := [], authorities := [], criticalPathScore := []
    inDegree := [], outDegree := [], cycles := [], density := 0 }

/-- Stats with pairwise-distinct betweenness scores, first iteration order. -/
def distinctStatsA : GraphStats :=
  { pageRank := [], betweenness := [("a", 2), ("b", 1)], eigenvector := []
    hubs := [], authorities := [], criticalPathScore := []
    inDegree := [], outDegree := [], cycles := [], density := 0 }

/-- The same stats as distinctStatsA in the opposite iteration order. -/
def distinctStatsB : GraphStats :=
  { pageRank := [], betweenness := [("b", 1), ("a", 2)], eigenvector := []
    hubs := [], authorities := [], criticalPathScore := []
    inDegree := [], outDegree := [], cycles := [], density := 0 }

/-! ## The analytics engine (modelled from the spec)

The analysis package's implementation (analysis.NewAnalyzer, Analyze, the
cycle detector and the centrality computations) is not under src/; only its
callers and tests are.  The definitions below are modelled from the
specification (sections 3, 4.1-4.4, 7 and 9) and are checked against the
concrete expectations recorded in the repository's tests. -/

/-- Modelled from the spec: the IssueGraph snapshot of section 3 - `nodes` is
one ID per issue, `edges` the ordered collection of (dependent, target)
pairs.  The analysis implementation is not under src/. -/
structure IssueGraph where
  nodes : List String
  edges : List (String × String)
deriving DecidableEq, Repr

/-- Modelled from the spec: graph construction (section 4.1).  Nodes are the
issue IDs in input order, one per issue regardless of edges; an edge is
materialized per blocking/parent-child dependency record; dangling targets
are retained; self-loops are dropped before any traversal because the
underlying directed-graph representation forbids self-edges (sections 4.2
and 9). -/
def buildGraph (issues : List Issue) : IssueGraph :=
  { nodes := issues.map Issue.id
    edges := issues.flatMap (fun i =>
      i.dependencies.filterMap (fun dep =>
        if (dep.dtype = DepBlocks ∨ dep.dtype = DepParentChild) ∧ dep.dependsOnID ≠ i.id
        then some (i.id, dep.dependsOnID) else none)) }

/-- Out-neighbor list of a node, in edge insertion order. -/
def adjOf (edges : List (String × String)) (v : String) : List String :=
  (edges.filter (fun e => e.1 == v)).map Prod.snd

/-- In-neighbor list of a node, in edge insertion order. -/
def inNbrs (edges : List (String × String)) (v : String) : List String :=
  (edges.filter (fun e => e.2 == v)).map Prod.fst

/-- Edge relation of an edge list. -/
def EdgeOf (edges : List (String × String)) (a b : String) : Prop := (a, b) ∈ edges

/-- Modelled from the spec: elementary-cycle enumeration (section 4.2),
Johnson-style - from every start node, in node order, search only among nodes
at positions not before the start, so each elementary cycle is reported
exactly once, rooted at its first member in node order.  `path` holds the
nodes walked so far, current node first, start node last; `ns` holds the
still-unprocessed neighbors of the current node; `fuel` bounds the recursion
depth (the path never repeats a node, so `nodes.length` suffices).  A
neighbor equal to the start closes an elementary cycle, emitted as the closed
walk `path.reverse ++ [start]`. -/
def cyclesGo (edges : List (String × String)) (nodes : List String) (start : String) :
    Nat → List String → List String → List (List String)
  | 0, _, _ => []
  | fuel + 1, path, ns =>
    ns.flatMap (fun n =>
      if n = start then
        [path.reverse ++ [start]]
      else if n ∈ path then
        []
      else if nodes.indexOf n < nodes.indexOf start then
        []
      else
        cyclesGo edges nodes start fuel (n :: path) (adjOf edges n))

/-- Modelled from the spec: the cycle set (sections 3 and 4.2) - an ordered,
deterministic list of elementary cycles, each a closed walk starting and
ending at the same ID. -/
def detectCycles (g : IssueGraph) : List (List String) :=
  g.nodes.flatMap (fun s => cyclesGo g.edges g.nodes s g.nodes.length [s] (adjOf g.edges s))

/-- Modelled from the spec: topological selection for the impact scorer
(section 4.4) - a node is eligible once no unprocessed node has an edge into
it. -/
def hasIncomingFrom (edges : List (String × String)) (remaining : List String)
    (v : String) : Bool :=
  edges.any (fun e => e.2 == v && remaining.contains e.1)

/-- First eligible node of the remaining list, in node order. -/
def topoPick (edges : List (String × String)) (remaining : List String) : Option String :=
  remaining.find? (fun v => !hasIncomingFrom edges remaining v)

/-- Modelled from the spec: topological ordering loop; when no node is
eligible (a cyclic subgraph, flagged as an open question in section 9) the
remaining nodes are appended in node order as the deterministic fallback. -/
def topoGo (edges : List (String × String)) : Nat → List String → List String
  | 0, remaining => remaining
  | fuel + 1, remaining =>
    match topoPick edges remaining with
    | some v => v :: topoGo edges fuel (remaining.erase v)
    | none => remaining

/-- Modelled from the spec: topological order of the dependency graph,
dependents before the issues they depend on. -/
def topoSort (nodes : List String) (edges : List (String × String)) : List String :=
  topoGo edges nodes.length nodes

/-- Modelled from the spec: the accumulation pass of the impact scorer
(section 4.4) - processing nodes in order, each node's impact is one plus the
sum of the already-final impacts of its direct dependents (the nodes with an
edge into it). -/
def impactFold (edges : List (String × String)) (order : List String) : String → Nat :=
  order.foldl (fun f v => fun x => if x = v then 1 + ((inNbrs edges v).map f).sum else f x)
    (fun _ => 0)

/-- Modelled from the spec: the dependency-depth impact score
(CriticalPathScore) of one node; an integral count, carried as a float64
score in the Go metric map. -/
def impactScore (g : IssueGraph) (v : String) : Nat :=
  impactFold g.edges (topoSort g.nodes g.edges) v

/-- Out-degree: count of outgoing edges. -/
def outDeg (g : IssueGraph) (v : String) : Nat :=
  (g.edges.filter (fun e => e.1 == v)).length

/-- In-degree: count of incoming edges. -/
def inDeg (g : IssueGraph) (v : String) : Nat :=
  (g.edges.filter (fun e => e.2 == v)).length

/-- Modelled from the spec: PageRank damping factor (historically 0.85,
section 4.3). -/
def prDamping : ℚ := 85 / 100

/-- Modelled from the spec: fixed iteration cap shared by the iterative
centrality computations (section 4.3). -/
def iterationCap : Nat := 20

/-- Sum of a per-node function over the node list. -/
def sumOn (g : IssueGraph) (r : String → ℚ) : ℚ := (g.nodes.map r).sum

/-- Modelled from the spec: one PageRank iteration - teleport mass plus
damped in-neighbor mass, with the mass of dangling nodes (no out-edges)
redistributed uniformly (section 4.3). -/
def prStep (g : IssueGraph) (r : String → ℚ) : String → ℚ := fun v =>
  let n : ℚ := g.nodes.length
  let danglingMass : ℚ := ((g.nodes.filter (fun u => outDeg g u == 0)).map r).sum
  (1 - prDamping) / n +
    prDamping * (((inNbrs g.edges v).map (fun u => r u / (outDeg g u : ℚ))).sum + danglingMass / n)

/-- Modelled from the spec: PageRank via capped fixed-point iteration from
the uniform distribution. -/
def pageRankFun (g : IssueGraph) : String → ℚ :=
  (prStep g)^[iterationCap] (fun _ => 1 / (g.nodes.length : ℚ))

/-- Maximum of a per-node function over the node list (at least 0). -/
def maxOn (g : IssueGraph) (r : String → ℚ) : ℚ := (g.nodes.map r).foldl max 0

/-- Modelled from the spec: one eigenvector-centrality power iteration,
max-normalized; a zero vector is left unchanged (disconnected or empty
graphs, section 4.3). -/
def eigStep (g : IssueGraph) (r : String → ℚ) : String → ℚ :=
  let r' := fun v => ((inNbrs g.edges v).map r).sum
  let m := maxOn g r'
  if m = 0 then r' else fun v => r' v / m

/-- Modelled from the spec: eigenvector centrality via capped power iteration
from the all-ones vector. -/
def eigenvectorFun (g : IssueGraph) : String → ℚ :=
  (eigStep g)^[iterationCap] (fun _ => 1)

/-- Modelled from the spec: one HITS round - authority from in-neighbor hubs,
hub from out-neighbor authorities, each sum-normalized (section 4.3). -/
def hitsStep (g : IssueGraph) (p : (String → ℚ) × (String → ℚ)) :
    (String → ℚ) × (String → ℚ) :=
  let auth' := fun v => ((inNbrs g.edges v).map p.1).sum
  let hub' := fun v => ((adjOf g.edges v).map auth').sum
  let sa := sumOn g auth'
  let sh := sumOn g hub'
  (if sh = 0 then hub' else fun v => hub' v / sh,
   if sa = 0 then auth' else fun v => auth' v / sa)

/-- Modelled from the spec: HITS hub and authority scores via capped
alternating power iteration from all-ones vectors. -/
def hitsFun (g : IssueGraph) : (String → ℚ) × (String → ℚ) :=
  (hitsStep g)^[iterationCap] (fun _ => 1, fun _ => 1)

/-- Number of directed walks of a given length between two nodes. -/
def walkCount (edges : List (String × String)) : Nat → String → String → Nat
  | 0, s, t => if s == t then 1 else 0
  | k + 1, s, t => ((adjOf edges s).map (fun n => walkCount edges k n t)).sum

/-- Shortest-path distance (edge count, at least 1) up to a bound, as the
least walk length with a positive walk count; none when unreachable. -/
def distUpTo (edges : List (String × String)) (bound : Nat) (s t : String) : Option Nat :=
  (List.range bound).findSome? (fun k =>
    if walkCount edges (k + 1) s t ≠ 0 then some (k + 1) else none)

/-- Modelled from the spec: the pair dependency of Brandes' accumulation -
the fraction of shortest s-t paths through v (walks of minimal length are
exactly the shortest paths). -/
def pairDependency (edges : List (String × String)) (bound : Nat)
    (s t v : String) : ℚ :=
  match distUpTo edges bound s t with
  | none => 0
  | some dst =>
    match distUpTo edges bound s v, distUpTo edges bound v t with
    | some d1, some d2 =>
      if d1 + d2 = dst then
        ((walkCount edges d1 s v * walkCount edges d2 v t : Nat) : ℚ) /
          ((walkCount edges dst s t : Nat) : ℚ)
      else 0
    | _, _ => 0

/-- Modelled from the spec: betweenness centrality of a node - the summed
fraction of all-pairs shortest paths passing through it; unreachable pairs
contribute zero (section 4.3). -/
def betweennessScore (g : IssueGraph) (v : String) : ℚ :=
  ((g.nodes.flatMap (fun s => g.nodes.map (fun t => (s, t)))).map (fun st =>
    if st.1 ≠ st.2 ∧ st.1 ≠ v ∧ st.2 ≠ v then
      pairDependency g.edges g.nodes.length st.1 st.2 v
    else 0)).sum

/-- Modelled from the spec: graph density - edge count over `n * (n - 1)`,
and 0 when the node count is below 2 (section 4.5). -/
def densityOf (g : IssueGraph) : ℚ :=
  if g.nodes.length < 2 then 0
  else (g.edges.length : ℚ) / ((g.nodes.length : ℚ) * ((g.nodes.length : ℚ) - 1))

/-- Modelled from the spec: Analyzer.Analyze - build the graph once, then
derive every metric map (an entry for every node), the cycle list and the
density (sections 2-4). -/
def Analyze (issues : List Issue) : GraphStats :=
  let g := buildGraph issues
  { pageRank := g.nodes.map (fun v => (v, pageRankFun g v))
    betweenness := g.nodes.map (fun v => (v, betweennessScore g v))
    eigenvector := g.nodes.map (fun v => (v, eigenvectorFun g v))
    hubs := g.nodes.map (fun v => (v, (hitsFun g).1 v))
    authorities := g.nodes.map (fun v => (v, (hitsFun g).2 v))
    criticalPathScore := g.nodes.map (fun v => (v, (impactScore g v : ℚ)))
    inDegree := g.nodes.map (fun v => (v, inDeg g v))
    outDegree := g.nodes.map (fun v => (v, outDeg g v))
    cycles := detectCycles g
    density := densityOf g }

/-! ## Concrete issue lists from the repository's tests -/

/-- Three-issue chain of TestImpactScore and section 8: A depends on B, B
depends on C. -/
def chainIssues : List Issue :=
  [⟨"A", "open", [⟨"B", "blocks"⟩]⟩, ⟨"B", "open", [⟨"C", "blocks"⟩]⟩, ⟨"C", "open", []⟩]

/-- Two disjoint 2-node mutual dependencies (createMultipleCyclesRepo of the
cycle-visualization e2e test). -/
def twoCyclesIssues : List Issue :=
  [⟨"cycle1-a", "open", [⟨"cycle1-b", "blocks"⟩]⟩,
   ⟨"cycle1-b", "open", [⟨"cycle1-a", "blocks"⟩]⟩,
   ⟨"cycle2-x", "open", [⟨"cycle2-y", "blocks"⟩]⟩,
   ⟨"cycle2-y", "open", [⟨"cycle2-x", "blocks"⟩]⟩]

/-- Single 3-node cycle (createThreeNodeCycleRepo of the e2e test). -/
def threeCycleIssues : List Issue :=
  [⟨"cycle-a", "open", [⟨"cycle-b", "blocks"⟩]⟩,
   ⟨"cycle-b", "open", [⟨"cycle-c", "blocks"⟩]⟩,
   ⟨"cycle-c", "open", [⟨"cycle-a", "blocks"⟩]⟩]

/-- One acyclic chain plus one disjoint 2-node cycle (createMixedCycleDAGRepo
of the e2e test). -/
def mixedIssues : List Issue :=
  [⟨"dag-root", "open", []⟩,
   ⟨"dag-mid", "open", [⟨"dag-root", "blocks"⟩]⟩,
   ⟨"dag-leaf", "open", [⟨"dag-mid", "blocks"⟩]⟩,
   ⟨"cycle-a", "open", [⟨"cycle-b", "blocks"⟩]⟩,
   ⟨"cycle-b", "open", [⟨"cycle-a", "blocks"⟩]⟩]

/-- An issue depending on itself (createSelfLoopRepo of the e2e test). -/
def selfLoopIssues : List Issue :=
  [⟨"self-loop", "open", [⟨"self-loop", "blocks"⟩]⟩]

/-- An issue whose blocking dependency targets an ID absent from the issue
list. -/
def danglingIssues : List Issue :=
  [⟨"A", "open", [⟨"ghost", "blocks"⟩]⟩]

/-! ## BackgroundWorker concurrency (pkg/ui/background_worker.go)

TriggerRefresh (lines 131-142) and process (lines 178-206) interleave through
mutex-protected critical sections.  A configuration holds the worker state,
the dirty flag, and the program point of every live process() goroutine; the
atomic steps of the transition system are exactly the lock-protected sections
of the Go code together with goroutine spawns.  The watcher loop enters the
same process() body and is not modelled separately; every modelled trace uses
only TriggerRefresh calls and the process() body itself. -/

/-- WorkerState of background_worker.go: WorkerIdle, WorkerProcessing,
WorkerStopped. -/
inductive WorkerState
  | idle
  | processing
  | stopped
deriving DecidableEq, Repr

/-- Program points of one process() goroutine: `spawned` - the `go
w.process()` statement has run but the goroutine has not yet entered its
first locked section; `computing` - past the first locked section (which set
state to WorkerProcessing and cleared dirty), running buildSnapshot;
`finishing` - past the second locked section (which published the snapshot,
read wasDirty and set state to WorkerIdle), about to run the final
`if wasDirty { go w.process() }`. -/
inductive ProcPhase
  | spawned
  | computing
  | finishing (wasDirty : Bool)
deriving DecidableEq, Repr

/-- Configuration of the worker: state and dirty flag (mutex-protected
fields) plus the live process() goroutines. -/
structure WorkerCfg where
  state : WorkerState
  dirty : Bool
  procs : List ProcPhase
deriving DecidableEq, Repr

/-- Initial configuration of NewBackgroundWorker: WorkerIdle, clean, no
goroutine. -/
def workerInit : WorkerCfg := ⟨WorkerState.idle, false, []⟩

/-- Atomic steps of the worker.  `triggerDirty`/`triggerSpawn` are the locked
section of TriggerRefresh followed by its spawn; `procStartRun`/
`procStartStopped` the first locked section of process (which checks only
WorkerStopped); `procFinish` its second locked section; `procRespawn` the
final wasDirty check; `stopWorker` the locked section of Stop. -/
inductive WStep : WorkerCfg → WorkerCfg → Prop
  | triggerDirty (c : WorkerCfg) (h : c.state = WorkerState.processing) :
      WStep c { c with dirty := true }
  | triggerSpawn (c : WorkerCfg) (h : c.state ≠ WorkerState.processing) :
      WStep c { c with procs := ProcPhase.spawned :: c.procs }
  | procStartRun (c : WorkerCfg) (l₁ l₂ : List ProcPhase)
      (h : c.procs = l₁ ++ ProcPhase.spawned :: l₂)
      (hs : c.state ≠ WorkerState.stopped) :
      WStep c ⟨WorkerState.processing, false, l₁ ++ ProcPhase.computing :: l₂⟩
  | procStartStopped (c : WorkerCfg) (l₁ l₂ : List ProcPhase)
      (h : c.procs = l₁ ++ ProcPhase.spawned :: l₂)
      (hs : c.state = WorkerState.stopped) :
      WStep c { c with procs := l₁ ++ l₂ }
  | procFinish (c : WorkerCfg) (l₁ l₂ : List ProcPhase)
      (h : c.procs = l₁ ++ ProcPhase.computing :: l₂) :
      WStep c ⟨WorkerState.idle, c.dirty, l₁ ++ ProcPhase.finishing c.dirty :: l₂⟩
  | procRespawn (c : WorkerCfg) (l₁ l₂ : List ProcPhase) (w : Bool)
      (h : c.procs = l₁ ++ ProcPhase.finishing w :: l₂) :
      WStep c { c with
        procs := (if w then [ProcPhase.spawned] else []) ++ l₁ ++ l₂ }
  | stopWorker (c : WorkerCfg) :
      WStep c { c with state := WorkerState.stopped }

/-- Number of snapshot computations currently running (goroutines inside
buildSnapshot). -/
def runningCount (c : WorkerCfg) : Nat :=
  c.procs.count ProcPhase.computing

/-! ## Membership characterization of the rebuildGraph relationship maps -/

/-- Edge-type test of rebuildGraph: a dependency materializes an edge exactly
when its type is "blocks" or "parent-child". -/
def IsEdgeType (t : String) : Prop := t = DepBlocks ∨ t = DepParentChild

instance (t : String) : Decidable (IsEdgeType t) := by
  unfold IsEdgeType; infer_instance

lemma mem_blockers_addDep {iid : String} {dep : Dependency} {r : Rels} {a b : String} :
    b ∈ (addDep iid dep r).blockers a ↔
      b ∈ r.blockers a ∨ (iid = a ∧ dep.dependsOnID = b ∧ IsEdgeType dep.dtype) := by
  unfold addDep IsEdgeType
  split
  · rename_i h
    simp only
    by_cases ha : a = iid
    · subst ha
      rw [if_pos rfl]
      simp only [List.mem_append, List.mem_singleton]
      constructor
      · rintro (hb | hb)
        · exact Or.inl hb
        · exact Or.inr ⟨by trivial, hb.symm, h⟩
      · rintro (hb | ⟨_, hb, _⟩)
        · exact Or.inl hb
        · exact Or.inr hb.symm
    · rw [if_neg ha]
      constructor
      · exact Or.inl
      · rintro (hb | ⟨h1, _, _⟩)
        · exact hb
        · exact absurd h1.symm ha
  · rename_i h
    constructor
    · exact Or.inl
    · rintro (hb | ⟨_, _, ht⟩)
      · exact hb
      · exact absurd ht h

lemma mem_dependents_addDep {iid : String} {dep : Dependency} {r : Rels} {a b : String} :
    b ∈ (addDep iid dep r).dependents a ↔
      b ∈ r.dependents a ∨ (iid = b ∧ dep.dependsOnID = a ∧ IsEdgeType dep.dtype) := by
  unfold addDep IsEdgeType
  split
  · rename_i h
    simp only
    by_cases ha : a = dep.dependsOnID
    · rw [if_pos ha]
      simp only [List.mem_append, List.mem_singleton]
      constructor
      · rintro (hb | hb)
        · exact Or.inl hb
        · exact Or.inr ⟨hb.symm, ha.symm, h⟩
      · rintro (hb | ⟨hb, _, _⟩)
        · exact Or.inl hb
        · exact Or.inr hb.symm
    · rw [if_neg ha]
      constructor
      · exact Or.inl
      · rintro (hb | ⟨_, h2, _⟩)
        · exact hb
        · exact absurd h2.symm ha
  · rename_i h
    constructor
    · exact Or.inl
    · rintro (hb | ⟨_, _, ht⟩)
      · exact hb
      · exact absurd ht h

lemma mem_blockers_foldDeps (iid : String) (deps : List Dependency) (r : Rels)
    (a b : String) :
    b ∈ (deps.foldl (fun r d => addDep iid d r) r).blockers a ↔
      b ∈ r.blockers a ∨
        (iid = a ∧ ∃ dep ∈ deps, dep.dependsOnID = b ∧ IsEdgeType dep.dtype) := by
  induction deps generalizing r with
  | nil => simp
  | cons d rest ih =>
    simp only [List.foldl_cons]
    rw [ih, mem_blockers_addDep]
    simp only [List.mem_cons]
    constructor
    · rintro ((hb | ⟨h1, h2, h3⟩) | ⟨h1, dep, hdep, h2, h3⟩)
      · exact Or.inl hb
      · exact Or.inr ⟨h1, d, Or.inl rfl, h2, h3⟩
      · exact Or.inr ⟨h1, dep, Or.inr hdep, h2, h3⟩
    · rintro (hb | ⟨h1, dep, hdep | hdep, h2, h3⟩)
      · exact Or.inl (Or.inl hb)
      · subst hdep; exact Or.inl (Or.inr ⟨h1, h2, h3⟩)
      · exact Or.inr ⟨h1, dep, hdep, h2, h3⟩

lemma mem_dependents_foldDeps (iid : String) (deps : List Dependency) (r : Rels)
    (a b : String) :
    b ∈ (deps.foldl (fun r d => addDep iid d r) r).dependents a ↔
      b ∈ r.dependents a ∨
        (iid = b ∧ ∃ dep ∈ deps, dep.dependsOnID = a ∧ IsEdgeType dep.dtype) := by
  induction deps generalizing r with
  | nil => simp
  | cons d rest ih =>
    simp only [List.foldl_cons]
    rw [ih, mem_dependents_addDep]
    simp only [List.mem_cons]
    constructor
    · rintro ((hb | ⟨h1, h2, h3⟩) | ⟨h1, dep, hdep, h2, h3⟩)
      · exact Or.inl hb
      · exact Or.inr ⟨h1, d, Or.inl rfl, h2, h3⟩
      · exact Or.inr ⟨h1, dep, Or.inr hdep, h2, h3⟩
    · rintro (hb | ⟨h1, dep, hdep | hdep, h2, h3⟩)
      · exact Or.inl (Or.inl hb)
      · subst hdep; exact Or.inl (Or.inr ⟨h1, h2, h3⟩)
      · exact Or.inr ⟨h1, dep, hdep, h2, h3⟩

lemma mem_blockers_foldIssues (issues : List Issue) (r : Rels) (a b : String) :
    b ∈ (issues.foldl (fun r i => addIssueRels i r) r).blockers a ↔
      b ∈ r.blockers a ∨
        ∃ i ∈ issues, i.id = a ∧
          ∃ dep ∈ i.dependencies, dep.dependsOnID = b ∧ IsEdgeType dep.dtype := by
  induction issues generalizing r with
  | nil => simp
  | cons i rest ih =>
    simp only [List.foldl_cons]
    rw [ih]
    unfold addIssueRels
    rw [mem_blockers_foldDeps]
    simp only [List.mem_cons]
    constructor
    · rintro ((hb | ⟨h1, h2⟩) | ⟨j, hj, h⟩)
      · exact Or.inl hb
      · exact Or.inr ⟨i, Or.inl rfl, h1, h2⟩
      · exact Or.inr ⟨j, Or.inr hj, h⟩
    · rintro (hb | ⟨j, hj | hj, h⟩)
      · exact Or.inl (Or.inl hb)
      · subst hj; exact Or.inl (Or.inr h)
      · exact Or.inr ⟨j, hj, h⟩

lemma mem_dependents_foldIssues (issues : List Issue) (r : Rels) (a b : String) :
    b ∈ (issues.foldl (fun r i => addIssueRels i r) r).dependents a ↔
      b ∈ r.dependents a ∨
        ∃ i ∈ issues, i.id = b ∧
          ∃ dep ∈ i.dependencies, dep.dependsOnID = a ∧ IsEdgeType dep.dtype := by
  induction issues generalizing r with
  | nil => simp
  | cons i rest ih =>
    simp only [List.foldl_cons]
    rw [ih]
    unfold addIssueRels
    rw [mem_dependents_foldDeps]
    simp only [List.mem_cons]
    constructor
    · rintro ((hb | ⟨h1, h2⟩) | ⟨j, hj, h⟩)
      · exact Or.inl hb
      · exact Or.inr ⟨i, Or.inl rfl, h1, h2⟩
      · exact Or.inr ⟨j, Or.inr hj, h⟩
    · rintro (hb | ⟨j, hj | hj, h⟩)
      · exact Or.inl (Or.inl hb)
      · subst hj; exact Or.inl (Or.inr h)
      · exact Or.inr ⟨j, hj, h⟩

/-- C5: GraphModel.rebuildGraph materializes an edge (an entry in the
`blockers` map of the dependent and, symmetrically, in the `dependents` map of
the target) for a dependency record if and only if the record's type is
"blocks" or "parent-child"; dependency records of any other type produce no
edge, for every input issue list. -/
theorem rebuildGraph_edge_iff (issues : List Issue) (a b : String) :
    (b ∈ (rebuildRels issues).blockers a ↔
      ∃ i ∈ issues, i.id = a ∧
        ∃ dep ∈ i.dependencies, dep.dependsOnID = b ∧ IsEdgeType dep.dtype) ∧
    (b ∈ (rebuildRels issues).dependents a ↔
      ∃ i ∈ issues, i.id = b ∧
        ∃ dep ∈ i.dependencies, dep.dependsOnID = a ∧ IsEdgeType dep.dtype) := by
  unfold rebuildRels
  rw [mem_blockers_foldIssues, mem_dependents_foldIssues]
  unfold emptyRels
  simp

/-! ## The readiness and open counts of SnapshotBuilder.Build -/

lemma isBlockedByDeps_eq_false (imap : String → Option Issue) (deps : List Dependency) :
    (!isBlockedByDeps imap deps) =
      deps.all (fun dep =>
        !IsBlockingType dep.dtype ||
          match imap dep.dependsOnID with
          | some blocker => blocker.status = StatusClosed
          | none => true) := by
  unfold isBlockedByDeps
  induction deps with
  | nil => rfl
  | cons d rest ih =>
    simp only [List.any_cons, List.all_cons, Bool.not_or, ← ih]
    congr 1
    cases hB : IsBlockingType d.dtype
    · rfl
    · cases him : imap d.dependsOnID with
      | none => rfl
      | some blocker =>
        simp only [Bool.true_and, Bool.not_not, decide_not]
        cases hst : decide (blocker.status = StatusClosed) <;>
          simp [hst]

lemma readySpec_eq (imap : String → Option Issue) (i : Issue) :
    readySpec imap i =
      (!decide (i.status = StatusClosed) && !decide (i.status = StatusBlocked) &&
        !isBlockedByDeps imap i.dependencies) := by
  unfold readySpec
  rw [isBlockedByDeps_eq_false]
  simp [decide_not]

lemma countIssue_cReady (imap : String → Option Issue) (c : Counts) (i : Issue) :
    (countIssue imap c i).cReady =
      c.cReady + (if readySpec imap i then 1 else 0) := by
  unfold countIssue
  by_cases h1 : i.status = StatusClosed
  · rw [if_pos h1, readySpec_eq]
    simp [h1]
  · rw [if_neg h1]
    by_cases h2 : i.status = StatusBlocked
    · rw [if_pos h2, readySpec_eq]
      simp [h1, h2]
    · rw [if_neg h2]
      by_cases h3 : isBlockedByDeps imap i.dependencies
      · rw [if_pos h3, readySpec_eq]
        simp [h1, h2, h3]
      · rw [if_neg h3, readySpec_eq]
        simp [h1, h2, h3]

lemma countIssue_cOpen (imap : String → Option Issue) (c : Counts) (i : Issue) :
    (countIssue imap c i).cOpen =
      c.cOpen + (if i.status = StatusClosed then 0 else 1) := by
  unfold countIssue
  by_cases h1 : i.status = StatusClosed
  · rw [if_pos h1, if_pos h1]
    rfl
  · rw [if_neg h1, if_neg h1]
    by_cases h2 : i.status = StatusBlocked
    · rw [if_pos h2]
    · rw [if_neg h2]
      by_cases h3 : isBlockedByDeps imap i.dependencies
      · rw [if_pos h3]
      · rw [if_neg h3]

lemma foldl_countIssue_cReady (imap : String → Option Issue) (issues : List Issue)
    (c : Counts) :
    (issues.foldl (countIssue imap) c).cReady =
      c.cReady + (issues.filter (readySpec imap)).length := by
  induction issues generalizing c with
  | nil => simp
  | cons i rest ih =>
    simp only [List.foldl_cons]
    rw [ih, countIssue_cReady]
    by_cases h : readySpec imap i
    · simp [List.filter_cons, h, Nat.add_assoc, Nat.add_comm 1]
    · simp [List.filter_cons, h]

lemma foldl_countIssue_cOpen (imap : String → Option Issue) (issues : List Issue)
    (c : Counts) :
    (issues.foldl (countIssue imap) c).cOpen =
      c.cOpen + (issues.filter (fun i => !decide (i.status = StatusClosed))).length := by
  induction issues generalizing c with
  | nil => simp
  | cons i rest ih =>
    simp only [List.foldl_cons]
    rw [ih, countIssue_cOpen]
    by_cases h : i.status = StatusClosed
    · simp [List.filter_cons, h]
    · simp [List.filter_cons, h, Nat.add_assoc, Nat.add_comm 1]

/-- C10: in SnapshotBuilder.Build, an issue that is not closed and not
explicitly blocked is counted as ready exactly when each of its blocking
dependencies either targets an ID absent from the issue map or targets an
issue whose status is closed (so a dangling blocking dependency never makes
an issue non-ready), and CountOpen counts every non-closed issue including
explicitly blocked ones. -/
theorem build_counts_ready_open (issues : List Issue) :
    (buildCounts issues).cReady =
      (issues.filter (readySpec (buildIssueMap issues))).length ∧
    (buildCounts issues).cOpen =
      (issues.filter (fun i => !decide (i.status = StatusClosed))).length := by
  unfold buildCounts
  rw [foldl_countIssue_cReady, foldl_countIssue_cOpen]
  exact ⟨Nat.zero_add _, Nat.zero_add _⟩

/-! ## Determinism of getTopKeys -/

lemma eq_of_perm_of_sortedGE {s₁ s₂ : ScoreList} (hp : s₁.Perm s₂)
    (h₁ : s₁.Pairwise valGE) (h₂ : s₂.Pairwise valGE)
    (hn : (s₁.map Prod.snd).Nodup) : s₁ = s₂ := by
  induction s₁ generalizing s₂ with
  | nil => exact hp.nil_eq
  | cons a t₁ ih =>
    cases s₂ with
    | nil => exact absurd hp.symm (by simp)
    | cons b t₂ =>
      have hmem : a ∈ b :: t₂ := hp.mem_iff.mp (List.mem_cons_self a t₁)
      have hab : a = b := by
        rcases List.mem_cons.mp hmem with h | hat₂
        · exact h
        · have hba : valGE b a := (List.pairwise_cons.mp h₂).1 a hat₂
          have hmem2 : b ∈ a :: t₁ := hp.symm.mem_iff.mp (List.mem_cons_self b t₂)
          rcases List.mem_cons.mp hmem2 with h | hbt₁
          · exact h.symm
          · have hab2 : valGE a b := (List.pairwise_cons.mp h₁).1 b hbt₁
            have heq : a.2 = b.2 := le_antisymm hba hab2
            have : a.2 ∉ t₁.map Prod.snd := (List.nodup_cons.mp (by simpa using hn)).1
            exact absurd (heq ▸ List.mem_map_of_mem Prod.snd hbt₁) this
      subst hab
      have ht : t₁.Perm t₂ := hp.cons_inv
      rw [ih ht (List.pairwise_cons.mp h₁).2 (List.pairwise_cons.mp h₂).2
        (List.nodup_cons.mp (by simpa using hn)).2]

lemma getTopKeys_eq_of_perm (l₁ l₂ : ScoreList) (k : Nat) (hp : l₁.Perm l₂)
    (hn : (l₁.map Prod.snd).Nodup) : getTopKeys l₁ k = getTopKeys l₂ k := by
  unfold getTopKeys
  have e : List.insertionSort valGE l₁ = List.insertionSort valGE l₂ := by
    apply eq_of_perm_of_sortedGE
    · exact (List.perm_insertionSort valGE l₁).trans
        (hp.trans (List.perm_insertionSort valGE l₂).symm)
    · exact List.sorted_insertionSort valGE l₁
    · exact List.sorted_insertionSort valGE l₂
    · exact (((List.perm_insertionSort valGE l₁).map Prod.snd).nodup_iff).mpr hn
  rw [e]

/-- C4 counterexample: two iterations of the identical betweenness map (a tie
between "a" and "b", opposite Go map iteration orders) make GenerateInsights
return differently ordered Bottlenecks lists, so the top-K output is not
stable under equal scores. -/
theorem generateInsights_tie_counterexample :
    tieStatsA.betweenness.Perm tieStatsB.betweenness ∧
    tieStatsA.criticalPathScore = tieStatsB.criticalPathScore ∧
    tieStatsA.eigenvector = tieStatsB.eigenvector ∧
    tieStatsA.hubs = tieStatsB.hubs ∧
    tieStatsA.authorities = tieStatsB.authorities ∧
    (GenerateInsights tieStatsA 1).bottlenecks ≠ (GenerateInsights tieStatsB 1).bottlenecks := by
  refine ⟨List.Perm.swap _ _ _, rfl, rfl, rfl, rfl, ?_⟩
  decide

/-- C4 amended: for every pair of calls of GenerateInsights on identical
metric maps, the returned top-K ID lists are identical provided no two
entries of a metric map carry equal scores; with equal scores present the
order of tied IDs follows the unspecified map iteration order (no tie-break
by ID exists in getTopKeys). -/
theorem generateInsights_deterministic (s₁ s₂ : GraphStats) (k : Nat)
    (hbw : s₁.betweenness.Perm s₂.betweenness)
    (hbwn : (s₁.betweenness.map Prod.snd).Nodup)
    (hcp : s₁.criticalPathScore.Perm s₂.criticalPathScore)
    (hcpn : (s₁.criticalPathScore.map Prod.snd).Nodup)
    (hev : s₁.eigenvector.Perm s₂.eigenvector)
    (hevn : (s₁.eigenvector.map Prod.snd).Nodup)
    (hhb : s₁.hubs.Perm s₂.hubs)
    (hhbn : (s₁.hubs.map Prod.snd).Nodup)
    (hau : s₁.authorities.Perm s₂.authorities)
    (haun : (s₁.authorities.map Prod.snd).Nodup) :
    (GenerateInsights s₁ k).bottlenecks = (GenerateInsights s₂ k).bottlenecks ∧
    (GenerateInsights s₁ k).keystones = (GenerateInsights s₂ k).keystones ∧
    (GenerateInsights s₁ k).influencers = (GenerateInsights s₂ k).influencers ∧
    (GenerateInsights s₁ k).hubs = (GenerateInsights s₂ k).hubs ∧
    (GenerateInsights s₁ k).authorities = (GenerateInsights s₂ k).authorities := by
  unfold GenerateInsights
  exact ⟨getTopKeys_eq_of_perm _ _ _ hbw hbwn, getTopKeys_eq_of_perm _ _ _ hcp hcpn,
    getTopKeys_eq_of_perm _ _ _ hev hevn, getTopKeys_eq_of_perm _ _ _ hhb hhbn,
    getTopKeys_eq_of_perm _ _ _ hau haun⟩

/-- Witness for the amended C4 theorem at concrete distinct-score stats in two
different iteration orders. -/
theorem generateInsights_deterministic_witness :
    (GenerateInsights distinctStatsA 1).bottlenecks =
      (GenerateInsights distinctStatsB 1).bottlenecks := by
  exact (generateInsights_deterministic distinctStatsA distinctStatsB 1
    (by decide) (by decide) (by decide) (by decide) (by decide)
    (by decide) (by decide) (by decide) (by decide) (by decide)).1

/-! ## Soundness of the cycle enumeration -/

lemma map_fst_pairing {α β : Type} (l : List α) (f : α → β) :
    (l.map (fun v => (v, f v))).map Prod.fst = l := by
  induction l with
  | nil => rfl
  | cons a t ih => simp only [List.map_cons, ih]

lemma mem_adjOf {edges : List (String × String)} {v m : String} :
    m ∈ adjOf edges v ↔ (v, m) ∈ edges := by
  unfold adjOf
  simp only [List.mem_map, List.mem_filter, beq_iff_eq]
  constructor
  · rintro ⟨⟨e1, e2⟩, ⟨he, hv⟩, hm⟩
    have h1 : e1 = v := hv
    have h2 : e2 = m := hm
    subst h1; subst h2
    exact he
  · intro h
    exact ⟨(v, m), ⟨h, rfl⟩, rfl⟩

lemma cyclesGo_sound (edges : List (String × String)) (nodes : List String) (start : String) :
    ∀ (fuel : Nat) (ns path : List String),
      path ≠ [] →
      path.getLast? = some start →
      List.Chain' (EdgeOf edges) path.reverse →
      path.Nodup →
      (∀ n ∈ ns, ∀ v ∈ path.head?, EdgeOf edges v n) →
      ∀ c ∈ cyclesGo edges nodes start fuel path ns,
        ∃ p : List String, c = start :: (p ++ [start]) ∧
          List.Chain' (EdgeOf edges) (start :: (p ++ [start])) ∧ (start :: p).Nodup := by
  intro fuel
  induction fuel with
  | zero =>
    intro ns path _ _ _ _ _ c hc
    simp [cyclesGo] at hc
  | succ fuel IH =>
    intro ns path hne hlast hchain hnd hadj c hc
    rw [cyclesGo, List.mem_flatMap] at hc
    obtain ⟨n, hn, hcn⟩ := hc
    obtain ⟨v, tl, rfl⟩ : ∃ v tl, path = v :: tl := by
      cases path with
      | nil => exact absurd rfl hne
      | cons v tl => exact ⟨v, tl, rfl⟩
    by_cases h1 : n = start
    · subst h1
      rw [if_pos rfl, List.mem_singleton] at hcn
      subst hcn
      obtain ⟨p0, hp0⟩ : ∃ p0, (v :: tl).reverse = n :: p0 := by
        have hh : (v :: tl).reverse.head? = some n := by
          rw [List.head?_reverse]; exact hlast
        cases hrev : (v :: tl).reverse with
        | nil => rw [hrev] at hh; exact absurd hh (by simp)
        | cons a p0 =>
          rw [hrev] at hh
          simp only [List.head?_cons, Option.some.injEq] at hh
          exact ⟨p0, by rw [hh]⟩
      refine ⟨p0, by rw [hp0, List.cons_append], ?_, ?_⟩
      · rw [← List.cons_append, ← hp0, List.chain'_append]
        refine ⟨hchain, List.chain'_singleton _, ?_⟩
        intro x hx y hy
        rw [List.getLast?_reverse] at hx
        simp only [List.head?_cons, Option.mem_def, Option.some.injEq] at hx hy
        subst hx; subst hy
        exact hadj n hn v rfl
      · rw [← hp0]
        exact List.nodup_reverse.mpr hnd
    · rw [if_neg h1] at hcn
      by_cases h2 : n ∈ v :: tl
      · rw [if_pos h2] at hcn
        exact absurd hcn (List.not_mem_nil c)
      · rw [if_neg h2] at hcn
        by_cases h3 : nodes.indexOf n < nodes.indexOf start
        · rw [if_pos h3] at hcn
          exact absurd hcn (List.not_mem_nil c)
        · rw [if_neg h3] at hcn
          refine IH (adjOf edges n) (n :: v :: tl) (by simp) ?_ ?_ ?_ ?_ c hcn
          · rw [List.getLast?_cons_cons]
            exact hlast
          · rw [List.reverse_cons, List.chain'_append]
            refine ⟨hchain, List.chain'_singleton _, ?_⟩
            intro x hx y hy
            rw [List.getLast?_reverse] at hx
            simp only [List.head?_cons, Option.mem_def, Option.some.injEq] at hx hy
            subst hx; subst hy
            exact hadj n hn v rfl
          · exact List.nodup_cons.mpr ⟨h2, hnd⟩
          · intro m hm w hw
            simp only [List.head?_cons, Option.mem_def, Option.some.injEq] at hw
            subst hw
            exact mem_adjOf.mp hm

lemma detectCycles_sound (g : IssueGraph) :
    ∀ c ∈ detectCycles g, ∃ s p, c = s :: (p ++ [s]) ∧
      List.Chain' (EdgeOf g.edges) (s :: (p ++ [s])) ∧ (s :: p).Nodup := by
  intro c hc
  unfold detectCycles at hc
  rw [List.mem_flatMap] at hc
  obtain ⟨s, _, hcs⟩ := hc
  obtain ⟨p, h1, h2, h3⟩ :=
    cyclesGo_sound g.edges g.nodes s g.nodes.length (adjOf g.edges s) [s]
      (by simp) (by simp) (by simp) (by simp)
      (fun n hn w hw => by
        simp only [List.head?_cons, Option.mem_def, Option.some.injEq] at hw
        subst hw
        exact mem_adjOf.mp hn)
      c hcs
  exact ⟨s, p, h1, h2, h3⟩

lemma chain'_transGen {R : String → String → Prop} :
    ∀ (t : List String) (x y : String), List.Chain' R (x :: t) →
      (x :: t).getLast? = some y → t ≠ [] → Relation.TransGen R x y := by
  intro t
  induction t with
  | nil =>
    intro x y _ _ h
    exact absurd rfl h
  | cons b t' ih =>
    intro x y hch hlast _
    have hR : R x b := (List.chain'_cons.mp hch).1
    cases t' with
    | nil =>
      rw [List.getLast?_cons_cons] at hlast
      have hby : b = y := by simpa using hlast
      subst hby
      exact Relation.TransGen.single hR
    | cons cc t'' =>
      rw [List.getLast?_cons_cons] at hlast
      exact Relation.TransGen.head hR
        (ih b y (List.chain'_cons.mp hch).2 hlast (by simp))

lemma closedWalk_transGen {edges : List (String × String)} {s : String} {p : List String}
    (hch : List.Chain' (EdgeOf edges) (s :: (p ++ [s]))) :
    ∀ v ∈ s :: (p ++ [s]), Relation.TransGen (EdgeOf edges) v v := by
  have hlast : (s :: (p ++ [s])).getLast? = some s := by
    rw [← List.cons_append, List.getLast?_concat]
  have hss : Relation.TransGen (EdgeOf edges) s s :=
    chain'_transGen (p ++ [s]) s s hch hlast (by simp)
  intro v hv
  rcases List.append_of_mem hv with ⟨l₁, l₂, hsplit⟩
  cases l₂ with
  | nil =>
    have hvs : v = s := by
      rw [hsplit, List.getLast?_concat] at hlast
      simpa using hlast
    subst hvs
    exact hss
  | cons c l₂' =>
    have hch2 := hch
    rw [hsplit] at hch2
    have hc2 : List.Chain' (EdgeOf edges) (v :: c :: l₂') :=
      (List.chain'_append.mp hch2).2.1
    have hlast2 : (v :: c :: l₂').getLast? = some s := by
      have := hlast
      rw [hsplit, List.getLast?_append_cons] at this
      exact this
    have h_vs : Relation.TransGen (EdgeOf edges) v s :=
      chain'_transGen (c :: l₂') v s hc2 hlast2 (by simp)
    cases l₁ with
    | nil =>
      have hsv : s = v := by
        have := congrArg List.head? hsplit
        simpa using this
      subst hsv
      exact h_vs
    | cons d l₁' =>
      have hsd : s = d := by
        have := congrArg List.head? hsplit
        simpa using this
      subst hsd
      have hpre : s :: (p ++ [s]) = ((s :: l₁') ++ [v]) ++ (c :: l₂') := by
        rw [hsplit]
        simp
      have hch3 := hch
      rw [hpre] at hch3
      have hc3 : List.Chain' (EdgeOf edges) ((s :: l₁') ++ [v]) :=
        (List.chain'_append.mp hch3).1
      have hc3' : List.Chain' (EdgeOf edges) (s :: (l₁' ++ [v])) := by
        rw [List.cons_append] at hc3
        exact hc3
      have hlast3 : (s :: (l₁' ++ [v])).getLast? = some v := by
        rw [← List.cons_append, List.getLast?_concat]
      have h_sv : Relation.TransGen (EdgeOf edges) s v :=
        chain'_transGen (l₁' ++ [v]) s v hc3' hlast3 (by simp)
      exact Relation.TransGen.trans h_vs h_sv

lemma closedWalk_length_dedup {s : String} {p : List String} (hnd : (s :: p).Nodup) :
    (s :: (p ++ [s])).length = (s :: (p ++ [s])).dedup.length + 1 := by
  have hmem : s ∈ p ++ [s] := List.mem_append_right p (List.mem_singleton_self s)
  rw [List.dedup_cons_of_mem hmem]
  have hnd2 : (p ++ [s]).Nodup :=
    ((List.perm_append_singleton s p).nodup_iff).mpr hnd
  rw [List.dedup_eq_self.mpr hnd2]
  simp [Nat.add_comm]

/-! ## No self-edges in the engine's graph and dangling-edge retention -/

lemma buildGraph_edge_mem (issues : List Issue) (i : Issue) (dep : Dependency)
    (hi : i ∈ issues) (hdep : dep ∈ i.dependencies) (ht : IsEdgeType dep.dtype)
    (hne : dep.dependsOnID ≠ i.id) :
    (i.id, dep.dependsOnID) ∈ (buildGraph issues).edges := by
  unfold buildGraph
  simp only [List.mem_flatMap, List.mem_filterMap]
  refine ⟨i, hi, dep, hdep, ?_⟩
  rw [if_pos ⟨ht, hne⟩]

lemma buildGraph_no_self (issues : List Issue) :
    ∀ e ∈ (buildGraph issues).edges, e.1 ≠ e.2 := by
  intro e he
  unfold buildGraph at he
  simp only [List.mem_flatMap, List.mem_filterMap] at he
  obtain ⟨i, _, dep, _, hif⟩ := he
  by_cases hcond : (dep.dtype = DepBlocks ∨ dep.dtype = DepParentChild) ∧
      dep.dependsOnID ≠ i.id
  · rw [if_pos hcond] at hif
    have he2 : (i.id, dep.dependsOnID) = e := Option.some.inj hif
    subst he2
    exact fun h => hcond.2 h.symm
  · rw [if_neg hcond] at hif
    exact absurd hif (by simp)

/-- C3: every enumerated cycle is a closed walk whose length is the number of
distinct member nodes plus one; concretely, two disjoint 2-node mutual
dependencies yield exactly 2 cycles of 3 elements each, and a single 3-node
cycle yields exactly 1 cycle of 4 elements containing all three member IDs. -/
theorem detectCycles_cardinality :
    (∀ (g : IssueGraph), ∀ c ∈ detectCycles g, c.length = c.dedup.length + 1) ∧
    detectCycles (buildGraph twoCyclesIssues) =
      [["cycle1-a", "cycle1-b", "cycle1-a"], ["cycle2-x", "cycle2-y", "cycle2-x"]] ∧
    detectCycles (buildGraph threeCycleIssues) =
      [["cycle-a", "cycle-b", "cycle-c", "cycle-a"]] := by
  refine ⟨?_, by decide, by decide⟩
  intro g c hc
  obtain ⟨s, p, rfl, _, hnd⟩ := detectCycles_sound g c hc
  exact closedWalk_length_dedup hnd

/-- Witness for C3 at the three-node-cycle graph. -/
theorem detectCycles_cardinality_witness :
    (["cycle-a", "cycle-b", "cycle-c", "cycle-a"] : List String).length =
      (["cycle-a", "cycle-b", "cycle-c", "cycle-a"] : List String).dedup.length + 1 :=
  detectCycles_cardinality.1 (buildGraph threeCycleIssues)
    ["cycle-a", "cycle-b", "cycle-c", "cycle-a"] (by decide)

/-- C7: every member of every reported cycle lies on a directed cycle of the
graph (so no node of a purely acyclic component appears in any reported
cycle), and for the mixed cycle-plus-chain graph of the e2e test exactly the
two-node cyclic component is reported - one cycle, no dag- node. -/
theorem detectCycles_isolation :
    (∀ (g : IssueGraph), ∀ c ∈ detectCycles g, ∀ v ∈ c,
      Relation.TransGen (EdgeOf g.edges) v v) ∧
    detectCycles (buildGraph mixedIssues) = [["cycle-a", "cycle-b", "cycle-a"]] := by
  refine ⟨?_, by decide⟩
  intro g c hc v hv
  obtain ⟨s, p, rfl, hch, _⟩ := detectCycles_sound g c hc
  exact closedWalk_transGen hch v hv

/-- Witness for C7 at the mixed graph's reported cycle member. -/
theorem detectCycles_isolation_witness :
    Relation.TransGen (EdgeOf (buildGraph mixedIssues).edges) "cycle-a" "cycle-a" :=
  detectCycles_isolation.1 (buildGraph mixedIssues) ["cycle-a", "cycle-b", "cycle-a"]
    (by decide) "cycle-a" (by decide)

/-- C8: graph construction drops self-edges for every input (so traversal
never sees one), cycle enumeration never reports a cycle consisting of a
single node, and the self-loop input of the e2e test yields a graph with no
edges and no reported cycles - the computation completes. -/
theorem selfLoop_dropped :
    (∀ (issues : List Issue), ∀ e ∈ (buildGraph issues).edges, e.1 ≠ e.2) ∧
    (∀ (issues : List Issue), ∀ c ∈ detectCycles (buildGraph issues),
      ∃ a ∈ c, ∃ b ∈ c, a ≠ b) ∧
    (buildGraph selfLoopIssues).nodes = ["self-loop"] ∧
    (buildGraph selfLoopIssues).edges = [] ∧
    detectCycles (buildGraph selfLoopIssues) = [] := by
  refine ⟨buildGraph_no_self, ?_, by decide, by decide, by decide⟩
  intro issues c hc
  obtain ⟨s, p, rfl, hch, hnd⟩ := detectCycles_sound (buildGraph issues) c hc
  cases p with
  | nil =>
    have hss : EdgeOf (buildGraph issues).edges s s := by
      have hch2 : List.Chain' (EdgeOf (buildGraph issues).edges) [s, s] := by
        simpa using hch
      exact (List.chain'_cons.mp hch2).1
    exact absurd rfl (buildGraph_no_self issues (s, s) hss)
  | cons q p' =>
    refine ⟨s, List.mem_cons_self _ _, q, ?_, ?_⟩
    · exact List.mem_cons_of_mem _ (List.mem_append_left _ (List.mem_cons_self _ _))
    · exact fun h => (List.nodup_cons.mp hnd).1 (h ▸ List.mem_cons_self q p')

/-- Witness for C8 at the dangling-edge graph's only edge. -/
theorem selfLoop_dropped_witness :
    ("A", "ghost").1 ≠ ("A", "ghost").2 :=
  selfLoop_dropped.1 danglingIssues ("A", "ghost") (by decide)

/-- C6: the empty issue list yields an empty graph, empty metric maps and an
empty cycle list (the engine is a total function, so no failure), and a
blocking dependency whose target ID is absent from the issue list still
materializes a dangling edge rather than an error. -/
theorem empty_and_dangling :
    buildGraph [] = ⟨[], []⟩ ∧
    (Analyze []).pageRank = [] ∧ (Analyze []).betweenness = [] ∧
    (Analyze []).eigenvector = [] ∧ (Analyze []).hubs = [] ∧
    (Analyze []).authorities = [] ∧ (Analyze []).criticalPathScore = [] ∧
    (Analyze []).inDegree = [] ∧ (Analyze []).outDegree = [] ∧
    (Analyze []).cycles = [] ∧
    (∀ (issues : List Issue) (i : Issue) (dep : Dependency),
      i ∈ issues → dep ∈ i.dependencies → IsEdgeType dep.dtype →
      dep.dependsOnID ≠ i.id →
      (i.id, dep.dependsOnID) ∈ (buildGraph issues).edges) ∧
    (buildGraph danglingIssues).edges = [("A", "ghost")] ∧
    "ghost" ∉ (buildGraph danglingIssues).nodes := by
  exact ⟨rfl, rfl, rfl, rfl, rfl, rfl, rfl, rfl, rfl, rfl,
    buildGraph_edge_mem, by decide, by decide⟩

/-- Witness for C6: the dangling blocking dependency of danglingIssues
produces its edge. -/
theorem empty_and_dangling_witness :
    ((⟨"A", "open", [⟨"ghost", "blocks"⟩]⟩ : Issue).id,
      (⟨"ghost", "blocks"⟩ : Dependency).dependsOnID) ∈
        (buildGraph danglingIssues).edges :=
  empty_and_dangling.2.2.2.2.2.2.2.2.2.2.1 danglingIssues
    ⟨"A", "open", [⟨"ghost", "blocks"⟩]⟩ ⟨"ghost", "blocks"⟩
    (by decide) (by decide) (by decide) (by decide)

/-- C2: after Analyze, each of the eight metric maps has exactly the graph's
node list as its key list, so every node present in the node set has an entry
in every metric map (the computed score, 0 by default for nodes the iteration
never reaches) and no per-node lookup by a downstream consumer misses a key. -/
theorem analyze_maps_complete (issues : List Issue) :
    (Analyze issues).pageRank.map Prod.fst = (buildGraph issues).nodes ∧
    (Analyze issues).betweenness.map Prod.fst = (buildGraph issues).nodes ∧
    (Analyze issues).eigenvector.map Prod.fst = (buildGraph issues).nodes ∧
    (Analyze issues).hubs.map Prod.fst = (buildGraph issues).nodes ∧
    (Analyze issues).authorities.map Prod.fst = (buildGraph issues).nodes ∧
    (Analyze issues).criticalPathScore.map Prod.fst = (buildGraph issues).nodes ∧
    (Analyze issues).inDegree.map Prod.fst = (buildGraph issues).nodes ∧
    (Analyze issues).outDegree.map Prod.fst = (buildGraph issues).nodes := by
  refine ⟨?_, ?_, ?_, ?_, ?_, ?_, ?_, ?_⟩ <;>
    exact map_fst_pairing _ _

/-! ## The impact recurrence -/

lemma mem_inNbrs {edges : List (String × String)} {v m : String} :
    m ∈ inNbrs edges v ↔ (m, v) ∈ edges := by
  unfold inNbrs
  simp only [List.mem_map, List.mem_filter, beq_iff_eq]
  constructor
  · rintro ⟨⟨e1, e2⟩, ⟨he, hv⟩, hm⟩
    have h1 : e2 = v := hv
    have h2 : e1 = m := hm
    subst h1; subst h2
    exact he
  · intro h
    exact ⟨(m, v), ⟨h, rfl⟩, rfl⟩

lemma impactFold_append_ne (edges : List (String × String)) (init : List String)
    (w u : String) (hu : u ≠ w) :
    impactFold edges (init ++ [w]) u = impactFold edges init u := by
  unfold impactFold
  rw [List.foldl_append, List.foldl_cons, List.foldl_nil]
  exact if_neg hu

lemma impactFold_append_self (edges : List (String × String)) (init : List String)
    (w : String) :
    impactFold edges (init ++ [w]) w =
      1 + ((inNbrs edges w).map (impactFold edges init)).sum := by
  unfold impactFold
  rw [List.foldl_append, List.foldl_cons, List.foldl_nil]
  exact if_pos rfl

lemma impactFold_spec (edges : List (String × String)) :
    ∀ (order : List String), order.Nodup →
      (∀ e ∈ edges, e.2 ∈ order → e.1 ∈ order ∧ order.indexOf e.1 < order.indexOf e.2) →
      ∀ v ∈ order,
        impactFold edges order v = 1 + ((inNbrs edges v).map (impactFold edges order)).sum := by
  intro order
  induction order using List.reverseRecOn with
  | nil =>
    intro _ _ v hv
    exact absurd hv (List.not_mem_nil v)
  | append_singleton init w IH =>
    intro hnd hedge v hv
    have hwi : w ∉ init := by
      intro hmem
      have := List.disjoint_of_nodup_append hnd
      exact this hmem (List.mem_singleton_self w)
    have hInit : ∀ u, u ∈ init → u ≠ w := fun u hu he => hwi (he ▸ hu)
    -- any in-neighbor of a member of init ++ [w] lies in init
    have hnbr : ∀ x, x ∈ init ++ [w] → ∀ u ∈ inNbrs edges x,
        u ∈ init ∧ List.indexOf u (init ++ [w]) < List.indexOf x (init ++ [w]) := by
      intro x hx u hu
      have he : (u, x) ∈ edges := mem_inNbrs.mp hu
      obtain ⟨hu1, hu2⟩ := hedge (u, x) he hx
      have hu1' : u ∈ init ++ [w] := hu1
      have hu2' : List.indexOf u (init ++ [w]) < List.indexOf x (init ++ [w]) := hu2
      refine ⟨?_, hu2'⟩
      by_cases huw : u = w
      · exfalso
        rw [huw, List.indexOf_append_of_not_mem hwi, List.indexOf_cons_self] at hu2'
        have hxlt : List.indexOf x (init ++ [w]) < (init ++ [w]).length :=
          List.indexOf_lt_length.mpr hx
        rw [List.length_append, List.length_singleton] at hxlt
        omega
      · rcases List.mem_append.mp hu1' with h | h
        · exact h
        · exact absurd (List.mem_singleton.mp h) huw
    -- the final fold agrees with the fold over init on every member of init
    have hagree : ∀ u, u ∈ init →
        impactFold edges (init ++ [w]) u = impactFold edges init u := by
      intro u hu
      exact impactFold_append_ne edges init w u (hInit u hu)
    have hedge_init : ∀ e ∈ edges, e.2 ∈ init →
        e.1 ∈ init ∧ List.indexOf e.1 init < List.indexOf e.2 init := by
      intro e he h2
      have h2' : e.2 ∈ init ++ [w] := List.mem_append_left _ h2
      have hm : e.1 ∈ init := by
        have := hnbr e.2 h2' e.1 (mem_inNbrs.mpr (by exact he))
        exact this.1
      obtain ⟨_, hlt⟩ := hedge e he h2'
      rw [List.indexOf_append_of_mem hm, List.indexOf_append_of_mem h2] at hlt
      exact ⟨hm, hlt⟩
    rcases List.mem_append.mp hv with hvi | hvw
    · -- v is a member of init: reduce to the inductive hypothesis
      rw [hagree v hvi,
        IH (List.Nodup.of_append_left hnd) hedge_init v hvi]
      have hmapeq : (inNbrs edges v).map (impactFold edges init) =
          (inNbrs edges v).map (impactFold edges (init ++ [w])) := by
        apply List.map_congr_left
        intro u hu
        have hui : u ∈ init := (hnbr v (List.mem_append_left _ hvi) u hu).1
        exact (hagree u hui).symm
      rw [hmapeq]
    · have hvw' : v = w := List.mem_singleton.mp hvw
      subst hvw'
      rw [impactFold_append_self]
      have hmapeq : (inNbrs edges v).map (impactFold edges init) =
          (inNbrs edges v).map (impactFold edges (init ++ [v])) := by
        apply List.map_congr_left
        intro u hu
        have hui : u ∈ init :=
          (hnbr v (List.mem_append_right _ (List.mem_singleton_self v)) u hu).1
        exact (hagree u hui).symm
      rw [hmapeq]

/-- C1: processing nodes in a topological order of the dependency edges
(dependents strictly before the issues they depend on - the order the scorer
derives on an acyclic graph), the impact of every node equals 1 plus the sum
of the impacts of the nodes with a direct dependency edge into it; concretely,
for the three-issue chain where A depends on B and B depends on C, the
CriticalPathScore is Impact(A)=1, Impact(B)=2, Impact(C)=3. -/
theorem impact_recurrence :
    (∀ (edges : List (String × String)) (order : List String),
      order.Nodup →
      (∀ e ∈ edges, e.2 ∈ order →
        e.1 ∈ order ∧ List.indexOf e.1 order < List.indexOf e.2 order) →
      ∀ v ∈ order,
        impactFold edges order v = 1 + ((inNbrs edges v).map (impactFold edges order)).sum) ∧
    impactScore (buildGraph chainIssues) "A" = 1 ∧
    impactScore (buildGraph chainIssues) "B" = 2 ∧
    impactScore (buildGraph chainIssues) "C" = 3 := by
  refine ⟨?_, by decide, by decide, by decide⟩
  intro edges order hnd hedge v hv
  exact impactFold_spec edges order hnd hedge v hv

/-- Witness for C1 at the chain graph's topological order. -/
theorem impact_recurrence_witness :
    impactFold (buildGraph chainIssues).edges ["A", "B", "C"] "B" =
      1 + ((inNbrs (buildGraph chainIssues).edges "B").map
        (impactFold (buildGraph chainIssues).edges ["A", "B", "C"])).sum :=
  impact_recurrence.1 (buildGraph chainIssues).edges ["A", "B", "C"]
    (by decide) (by decide) "B" (by decide)

/-- C9: the claimed discipline fails - a configuration with two snapshot
computations running at once is reachable from the initial worker state.  Two
TriggerRefresh calls both observe a state other than WorkerProcessing before
either spawned process() goroutine enters its first locked section, and that
section checks only for WorkerStopped, so both goroutines proceed into
buildSnapshot concurrently. -/
theorem worker_overlap_reachable :
    Relation.ReflTransGen WStep workerInit
      ⟨WorkerState.processing, false, [ProcPhase.computing, ProcPhase.computing]⟩ ∧
    runningCount
      ⟨WorkerState.processing, false, [ProcPhase.computing, ProcPhase.computing]⟩ = 2 := by
  constructor
  · have s1 : WStep ⟨WorkerState.idle, false, []⟩
        ⟨WorkerState.idle, false, [ProcPhase.spawned]⟩ :=
      WStep.triggerSpawn _ (by decide)
    have s2 : WStep ⟨WorkerState.idle, false, [ProcPhase.spawned]⟩
        ⟨WorkerState.idle, false, [ProcPhase.spawned, ProcPhase.spawned]⟩ :=
      WStep.triggerSpawn _ (by decide)
    have s3 : WStep ⟨WorkerState.idle, false, [ProcPhase.spawned, ProcPhase.spawned]⟩
        ⟨WorkerState.processing, false, [ProcPhase.computing, ProcPhase.spawned]⟩ :=
      WStep.procStartRun _ [] [ProcPhase.spawned] rfl (by decide)
    have s4 : WStep ⟨WorkerState.processing, false, [ProcPhase.computing, ProcPhase.spawned]⟩
        ⟨WorkerState.processing, false, [ProcPhase.computing, ProcPhase.computing]⟩ :=
      WStep.procStartRun _ [ProcPhase.computing] [] rfl (by decide)
    exact Relation.ReflTransGen.tail
      (Relation.ReflTransGen.tail
        (Relation.ReflTransGen.tail
          (Relation.ReflTransGen.tail Relation.ReflTransGen.refl s1) s2) s3) s4
  · rfl

end BeadsViewer
